import Mathlib

/-!
Shallow embedding of the job registry and reservation protocol of
`src/datajoint/jobs.py` (class `Job`), together with the Record Store
primitives it relies on.  The registry state is the list of rows of the
per-table job table; one row per job key.

The Record Store operations (`insert1`, `fetch`, `delete_quick`, `update1`)
live in the `Table` base class, which is not part of the excerpted source;
they are modelled from the spec (section 6, "Record Store").
-/

/-- A job key: the primary-key dict of one unit of work.  Its internal field
structure never matters to the registry logic, so it is abstracted to an
identifier with decidable equality. -/
abbrev JobKey := Nat

/-- Job status.  The values written by the registry operations:
`scheduled`, `reserved`, `success`, `error`, `ignore` (the declared enum in
the table definition lists scheduled, reserved, error, ignore; `complete`
additionally writes the `success` status of the spec data model). -/
inductive Status
  | scheduled
  | reserved
  | success
  | error
  | ignore
deriving DecidableEq, Repr

/-- One row of the jobs table: the key plus the non-key fields of the table
definition in `Job.__init__`, with their declared defaults. -/
structure JobRecord where
  key : JobKey
  status : Status
  priority : Int := 3
  error_message : String := ""
  error_stack : Option String := none
  run_duration : Option ℚ := none
  run_version : Option String := none
  user : String := ""
  host : String := ""
  pid : Nat := 0
  connection_id : Nat := 0
  timestamp : Nat := 0
deriving DecidableEq, Repr

/-- Call-time worker metadata (`platform.node()`, `os.getpid()`,
`connection.connection_id`, `self._user`) plus the current time used for the
`CURRENT_TIMESTAMP` column default. -/
structure WorkerCtx where
  host : String := ""
  pid : Nat := 0
  connection_id : Nat := 0
  user : String := ""
  now : Nat := 0

/-- Store-level failures surfaced to the registry: `DuplicateError` on a
plain insert whose key exists, and a missing row on `update1`. -/
inductive StoreErr
  | DuplicateError
  | MissingRecord
deriving DecidableEq, Repr

/-- Modelled from the spec: the Record Store primitive
`insert_or_replace(key, fields, allow_replace)` — "fails with DuplicateKey
when allow_replace=false and key exists"; with allow_replace the existing
row for the key is replaced ("replace always succeeds structurally").
This is the `Table.insert1` method, absent from the excerpted source. -/
def insert_or_replace (tbl : List JobRecord) (rec : JobRecord)
    (allow_replace : Bool) : Except StoreErr (List JobRecord) :=
  if allow_replace then
    .ok ((tbl.filter fun r => r.key ≠ rec.key) ++ [rec])
  else if tbl.any fun r => r.key = rec.key then
    .error .DuplicateError
  else
    .ok (tbl ++ [rec])

/-- Modelled from the spec: the Record Store read of one row by primary key
(`Table.fetch` restricted to a key), absent from the excerpted source. -/
def fetch1 (tbl : List JobRecord) (k : JobKey) : Option JobRecord :=
  tbl.find? fun r => r.key = k

/-- JSON-like structured values, the type of `run_version` payloads.
Modelled from the spec: "`run_version`: optional structured (JSON-like)
blob describing code/environment provenance", serialized as text. -/
inductive Json
  | null
  | bool (b : Bool)
  | num (n : Int)
  | str (s : String)
  | arr (elems : List Json)
  | obj (fields : List (String × Json))

/-- Python truthiness of a JSON value, as tested by
`if run_version` in `Job.complete`: None, False, 0, "", [] and \x7b\x7d
are falsy, everything else truthy. -/
def Json.truthy : Json → Bool
  | .null => false
  | .bool b => b
  | .num n => n != 0
  | .str s => !s.isEmpty
  | .arr es => !es.isEmpty
  | .obj fs => !fs.isEmpty

mutual

/-- Modelled from the spec: `json.dumps` serialization of structured data
to text (the Python standard-library serializer, outside the excerpted
source), with the default item and key separators. -/
def Json.dumps : Json → String
  | .null => "null"
  | .bool b => if b then "true" else "false"
  | .num n => toString n
  | .str s => "\"" ++ s ++ "\""
  | .arr es => "[" ++ Json.dumpsElems es ++ "]"
  | .obj fs => "\x7b" ++ Json.dumpsFields fs ++ "\x7d"

/-- Serialize array elements, separated by ", ". -/
def Json.dumpsElems : List Json → String
  | [] => ""
  | [e] => Json.dumps e
  | e :: e2 :: rest => Json.dumps e ++ ", " ++ Json.dumpsElems (e2 :: rest)

/-- Serialize object members, `"key": value` separated by ", ". -/
def Json.dumpsFields : List (String × Json) → String
  | [] => ""
  | [(k, v)] => "\"" ++ k ++ "\": " ++ Json.dumps v
  | (k, v) :: m2 :: rest =>
      "\"" ++ k ++ "\": " ++ Json.dumps v ++ ", " ++ Json.dumpsFields (m2 :: rest)

end

/-- Skip JSON whitespace. -/
def skipWs : List Char → List Char
  | [] => []
  | c :: rest =>
      if c = ' ' ∨ c = '\n' ∨ c = '\t' ∨ c = '\r' then skipWs rest else c :: rest

/-- Read a string body up to the closing quote (escape-free strings). -/
def readStr : List Char → Option (String × List Char)
  | [] => none
  | c :: rest =>
      if c = '"' then some ("", rest)
      else
        match readStr rest with
        | some (s, r) => some (String.mk (c :: s.data), r)
        | none => none

/-- Digits to the natural number they denote. -/
def digitsToNat (ds : List Char) : Nat :=
  ds.foldl (fun a c => 10 * a + (c.toNat - 48)) 0

/-- Read a (possibly negative) integer literal. -/
def readNum (cs : List Char) : Option (Int × List Char) :=
  match cs with
  | '-' :: rest =>
      let ds := rest.takeWhile Char.isDigit
      if ds.isEmpty then none
      else some (-(digitsToNat ds : Int), rest.dropWhile Char.isDigit)
  | _ =>
      let ds := cs.takeWhile Char.isDigit
      if ds.isEmpty then none
      else some ((digitsToNat ds : Int), cs.dropWhile Char.isDigit)

/-- Consume an exact keyword such as `null` or `true`. -/
def stripToken : List Char → List Char → Option (List Char)
  | [], rest => some rest
  | _ :: _, [] => none
  | t :: ts, c :: rest => if c = t then stripToken ts rest else none

mutual

/-- Modelled from the spec: the JSON reader that makes the serialized
`run_version` blob "decodable back" (the Python standard-library
`json.loads`, outside the excerpted source).  Fuel-indexed recursive
descent over the character list. -/
def parseVal : Nat → List Char → Option (Json × List Char)
  | 0, _ => none
  | fuel + 1, cs =>
      match skipWs cs with
      | [] => none
      | c :: rest =>
          if c = '"' then
            match readStr rest with
            | some (s, r) => some (.str s, r)
            | none => none
          else if c = '[' then
            match skipWs rest with
            | ']' :: r => some (.arr [], r)
            | cs2 =>
                match parseElems fuel cs2 with
                | some (es, r) => some (.arr es, r)
                | none => none
          else if c = '\x7b' then
            match skipWs rest with
            | '\x7d' :: r => some (.obj [], r)
            | cs2 =>
                match parseMembers fuel cs2 with
                | some (fs, r) => some (.obj fs, r)
                | none => none
          else if c = 'n' then
            match stripToken ['u', 'l', 'l'] rest with
            | some r => some (.null, r)
            | none => none
          else if c = 't' then
            match stripToken ['r', 'u', 'e'] rest with
            | some r => some (.bool true, r)
            | none => none
          else if c = 'f' then
            match stripToken ['a', 'l', 's', 'e'] rest with
            | some r => some (.bool false, r)
            | none => none
          else
            match readNum (c :: rest) with
            | some (n, r) => some (.num n, r)
            | none => none

/-- Parse one or more comma-separated array elements, then `]`. -/
def parseElems : Nat → List Char → Option (List Json × List Char)
  | 0, _ => none
  | fuel + 1, cs =>
      match parseVal fuel cs with
      | some (v, r) =>
          match skipWs r with
          | ',' :: r2 =>
              match parseElems fuel r2 with
              | some (es, r3) => some (v :: es, r3)
              | none => none
          | ']' :: r2 => some ([v], r2)
          | _ => none
      | none => none

/-- Parse one or more comma-separated `"key": value` members, then the
closing brace. -/
def parseMembers : Nat → List Char → Option (List (String × Json) × List Char)
  | 0, _ => none
  | fuel + 1, cs =>
      match skipWs cs with
      | '"' :: r =>
          match readStr r with
          | some (k, r2) =>
              match skipWs r2 with
              | ':' :: r3 =>
                  match parseVal fuel r3 with
                  | some (v, r4) =>
                      match skipWs r4 with
                      | ',' :: r5 =>
                          match parseMembers fuel r5 with
                          | some (fs, r6) => some ((k, v) :: fs, r6)
                          | none => none
                      | '\x7d' :: r5 => some ([(k, v)], r5)
                      | _ => none
                  | none => none
              | _ => none
          | none => none
      | _ => none

end

/-- Decode a serialized JSON text; succeeds when the whole input is one
value (up to whitespace). -/
def Json.loads (s : String) : Option Json :=
  match parseVal (s.length + 1) s.data with
  | some (v, rest) => if (skipWs rest).isEmpty then some v else none
  | none => none

namespace Job

/-- The row written by `Job.reserve`: the `job = dict(...)` literal with
`status="reserved"` and current worker metadata; every column the dict does
not mention takes its declared default under a REPLACE write. -/
def reserveRecord (ctx : WorkerCtx) (k : JobKey) : JobRecord :=
  { key := k, status := .reserved, host := ctx.host, pid := ctx.pid,
    connection_id := ctx.connection_id, user := ctx.user, timestamp := ctx.now }

/-- `Job.reserve`: attempts `insert1(job, replace=True, ...)`, returning
`False` on `DuplicateError` and `True` otherwise.  Returns the updated
table alongside the boolean. -/
def reserve (ctx : WorkerCtx) (tbl : List JobRecord) (k : JobKey) :
    Bool × List JobRecord :=
  match insert_or_replace tbl (reserveRecord ctx k) true with
  | .ok t => (true, t)
  | .error _ => (false, tbl)

/-- The row written by `Job.ignore`: `status="ignore"` plus current worker
metadata; unmentioned columns take their declared defaults. -/
def ignoreRecord (ctx : WorkerCtx) (k : JobKey) : JobRecord :=
  { key := k, status := .ignore, host := ctx.host, pid := ctx.pid,
    connection_id := ctx.connection_id, user := ctx.user, timestamp := ctx.now }

/-- `Job.ignore`: same write pattern as `reserve` with `status="ignore"`. -/
def ignore (ctx : WorkerCtx) (tbl : List JobRecord) (k : JobKey) :
    Bool × List JobRecord :=
  match insert_or_replace tbl (ignoreRecord ctx k) true with
  | .ok t => (true, t)
  | .error _ => (false, tbl)

/-- The row written by `Job.complete`: `status="success"`, `run_duration`,
`run_version=json.dumps(run_version) if run_version else None`, and current
worker metadata. -/
def completedRecord (ctx : WorkerCtx) (k : JobKey) (run_duration : Option ℚ)
    (run_version : Option Json) : JobRecord :=
  { key := k, status := .success,
    run_duration := run_duration,
    run_version :=
      match run_version with
      | some v => if v.truthy then some v.dumps else none
      | none => none,
    host := ctx.host, pid := ctx.pid, connection_id := ctx.connection_id,
    user := ctx.user, timestamp := ctx.now }

/-- `Job.complete`: `insert1(job, replace=True, ...)`; the replace write
always succeeds. -/
def complete (ctx : WorkerCtx) (tbl : List JobRecord) (k : JobKey)
    (run_duration : Option ℚ) (run_version : Option Json) : List JobRecord :=
  match insert_or_replace tbl (completedRecord ctx k run_duration run_version) true with
  | .ok t => t
  | .error _ => tbl

/-- `ERROR_MESSAGE_LENGTH = 2047`, the `varchar` cap of `error_message`. -/
def ERROR_MESSAGE_LENGTH : Nat := 2047

/-- `TRUNCATION_APPENDIX = "...truncated"`. -/
def TRUNCATION_APPENDIX : String := "...truncated"

/-- The truncation step at the head of `Job.error`: a message longer than
`ERROR_MESSAGE_LENGTH` becomes its first
`ERROR_MESSAGE_LENGTH - len(TRUNCATION_APPENDIX)` characters with
`TRUNCATION_APPENDIX` appended (`error_message[:n]` is `data.take n`). -/
def truncateMsg (error_message : String) : String :=
  if error_message.length > ERROR_MESSAGE_LENGTH then
    String.mk (error_message.data.take (ERROR_MESSAGE_LENGTH - TRUNCATION_APPENDIX.length))
      ++ TRUNCATION_APPENDIX
  else error_message

/-- The row written by `Job.error`: `status="error"`, the (already
truncated) message, the stack, and current worker metadata. -/
def errorRecord (ctx : WorkerCtx) (k : JobKey) (error_message : String)
    (error_stack : Option String) : JobRecord :=
  { key := k, status := .error, error_message := error_message,
    error_stack := error_stack, host := ctx.host, pid := ctx.pid,
    connection_id := ctx.connection_id, user := ctx.user, timestamp := ctx.now }

/-- `Job.error`: truncate the message, then `insert1(job, replace=True)`. -/
def error (ctx : WorkerCtx) (tbl : List JobRecord) (k : JobKey)
    (error_message : String) (error_stack : Option String) : List JobRecord :=
  let error_message := truncateMsg error_message
  match insert_or_replace tbl (errorRecord ctx k error_message error_stack) true with
  | .ok t => t
  | .error _ => tbl

/-- `preserve_statuses = ("reserved", "error", "ignore")` in `Job.refresh`. -/
def preserve_statuses : List Status := [.reserved, .error, .ignore]

/-- The row inserted by `Job.refresh` for a fresh work-set key:
`dict(**key, status="scheduled", priority=3)`; unmentioned columns take
their declared defaults. -/
def scheduledRecord (ctx : WorkerCtx) (k : JobKey) : JobRecord :=
  { key := k, status := .scheduled, priority := 3, timestamp := ctx.now }

/-- `Job.refresh(key_source)`: fetch the keys of rows whose status is in
`preserve_statuses`; delete each such row whose key is not in the work-set;
then, against the snapshot of all remaining keys, plain-insert a
`scheduled` row for each work-set key not present.  The plain insert can
raise `DuplicateError`, which propagates. -/
def refresh (ctx : WorkerCtx) (tbl : List JobRecord) (work_set : List JobKey) :
    Except StoreErr (List JobRecord) :=
  let existing_jobs := (tbl.filter fun r => r.status ∈ preserve_statuses).map (·.key)
  let available_keys := work_set
  let tbl1 := existing_jobs.foldl
    (fun t job_key =>
      if job_key ∈ available_keys then t
      else t.filter fun r => r.key ≠ job_key)
    tbl
  let existing_all := tbl1.map (·.key)
  available_keys.foldlM
    (fun t k =>
      if k ∈ existing_all then pure t
      else insert_or_replace t (scheduledRecord ctx k) false)
    tbl1

end Job

/-- Sortable columns of the jobs table, as named in `order_by` lists. -/
inductive JobField
  | status
  | priority
  | pid
  | connection_id
  | timestamp
deriving DecidableEq, Repr

/-- MySQL sorts an enum column by its index in the declaration
`enum('scheduled','reserved','error','ignore')`; `success` is not among
the declared members and is placed after them. -/
def statusIndex : Status → Int
  | .scheduled => 1
  | .reserved => 2
  | .error => 3
  | .ignore => 4
  | .success => 5

/-- Value of one sortable column of a row. -/
def fieldVal : JobField → JobRecord → Int
  | .status, r => statusIndex r.status
  | .priority, r => r.priority
  | .pid, r => r.pid
  | .connection_id, r => r.connection_id
  | .timestamp, r => r.timestamp

/-- Lexicographic `ORDER BY` comparison over a list of columns, each
ascending. -/
def fieldsLe (fs : List JobField) (a b : JobRecord) : Bool :=
  match fs with
  | [] => true
  | f :: rest =>
      if fieldVal f a < fieldVal f b then true
      else if fieldVal f b < fieldVal f a then false
      else fieldsLe rest a b

/-- The ordering relation induced by an `ORDER BY` column list. -/
def byFields (fs : List JobField) (a b : JobRecord) : Prop :=
  fieldsLe fs a b = true

instance (fs : List JobField) : DecidableRel (byFields fs) := fun a b => by
  unfold byFields
  infer_instance

instance instIsTotalByFields (fs : List JobField) :
    IsTotal JobRecord (byFields fs) := by
  constructor
  intro a b
  show fieldsLe fs a b = true ∨ fieldsLe fs b a = true
  induction fs with
  | nil => left; rfl
  | cons f rest ih =>
      rcases lt_trichotomy (fieldVal f a) (fieldVal f b) with h | h | h
      · left
        simp [fieldsLe, h]
      · simp only [fieldsLe, h, lt_irrefl, if_false]
        exact ih
      · right
        simp [fieldsLe, h]

instance instIsTransByFields (fs : List JobField) :
    IsTrans JobRecord (byFields fs) := by
  constructor
  intro a b c hab0 hbc0
  have hab : fieldsLe fs a b = true := hab0
  have hbc : fieldsLe fs b c = true := hbc0
  clear hab0 hbc0
  show fieldsLe fs a c = true
  induction fs with
  | nil => rfl
  | cons f rest ih =>
      rcases lt_trichotomy (fieldVal f a) (fieldVal f b) with h1 | h1 | h1
      · rcases lt_trichotomy (fieldVal f b) (fieldVal f c) with h2 | h2 | h2
        · simp [fieldsLe, lt_trans h1 h2]
        · have h3 : fieldVal f a < fieldVal f c := by rw [← h2]; exact h1
          simp [fieldsLe, h3]
        · simp [fieldsLe, h2, asymm h2] at hbc
      · rcases lt_trichotomy (fieldVal f b) (fieldVal f c) with h2 | h2 | h2
        · have h3 : fieldVal f a < fieldVal f c := by rw [h1]; exact h2
          simp [fieldsLe, h3]
        · have h3 : fieldVal f a = fieldVal f c := h1.trans h2
          have hab' : fieldsLe rest a b = true := by
            simpa [fieldsLe, h1, lt_irrefl] using hab
          have hbc' : fieldsLe rest b c = true := by
            simpa [fieldsLe, h2, lt_irrefl] using hbc
          simp only [fieldsLe, h3, lt_irrefl, if_false]
          exact ih hab' hbc'
        · simp [fieldsLe, h2, asymm h2] at hbc
      · simp [fieldsLe, h1, asymm h1] at hab

namespace Job

/-- `Job.get_scheduled_jobs(limit, order_by)`: restrict to
`status="scheduled"`, fetch sorted by the requested columns (default
`["priority", "timestamp"]`), apply `query[:limit]` only when `limit` is
truthy (Python: `if limit:`), and return the keys. -/
def get_scheduled_jobs (tbl : List JobRecord) (limit : Option Nat)
    (order_by : Option (List JobField)) : List JobKey :=
  let query := tbl.filter fun r => r.status = Status.scheduled
  let sorted :=
    match order_by with
    | some fs => List.insertionSort (byFields fs) query
    | none => List.insertionSort (byFields [.priority, .timestamp]) query
  let limited :=
    match limit with
    | some n => if n ≠ 0 then sorted.take n else sorted
    | none => sorted
  limited.map (·.key)

/-- Modelled from the spec: the Record Store conditional update
(`Table.update1`, absent from the excerpted source) — updates exactly the
supplied non-key fields of the existing row with the given key and fails
when no such row exists; specialized to the `priority` field, the only
update issued by this file. -/
def update1_priority (tbl : List JobRecord) (k : JobKey) (priority : Int) :
    Except StoreErr (List JobRecord) :=
  if tbl.any fun r => r.key = k then
    .ok (tbl.map fun r => if r.key = k then { r with priority := priority } else r)
  else .error .MissingRecord

/-- `Job.set_priority`: `self.update1(dict(**key, priority=priority))`. -/
def set_priority (tbl : List JobRecord) (k : JobKey) (priority : Int) :
    Except StoreErr (List JobRecord) :=
  update1_priority tbl k priority

end Job

instance {ε α : Type} [DecidableEq ε] [DecidableEq α] : DecidableEq (Except ε α) :=
  fun a b =>
    match a, b with
    | .ok x, .ok y => decidable_of_iff (x = y) (by simp)
    | .error x, .error y => decidable_of_iff (x = y) (by simp)
    | .ok _, .error _ => isFalse (by simp)
    | .error _, .ok _ => isFalse (by simp)

/-- The P4 scenario rows: a reserved, b error, c scheduled. -/
def recA : JobRecord := { key := 1, status := .reserved }

/-- See `recA`. -/
def recB : JobRecord := { key := 2, status := .error }

/-- See `recA`. -/
def recC : JobRecord := { key := 3, status := .scheduled }

/-- A reserved row whose key is about to leave the work-set. -/
def cexReserved : JobRecord := { key := 5, status := .reserved }

/-- The P5 scenario rows: (priority, timestamp) = (5, t2), (1, t1), (1, t3)
with t1 < t2 < t3. -/
def ex1 : JobRecord := { key := 1, status := .scheduled, priority := 5, timestamp := 20 }

/-- See `ex1`. -/
def ex2 : JobRecord := { key := 2, status := .scheduled, priority := 1, timestamp := 10 }

/-- See `ex1`. -/
def ex3 : JobRecord := { key := 3, status := .scheduled, priority := 1, timestamp := 30 }

/-- A 5000-character message, longer than the cap. -/
def mlong : String := String.mk (List.replicate 5000 'x')

/-- Reading back the key just written by a replace write returns exactly the
written row: the rows kept by the replace all have a different key. -/
lemma fetch1_replace (tbl : List JobRecord) (rec : JobRecord) :
    fetch1 ((tbl.filter fun r => r.key ≠ rec.key) ++ [rec]) rec.key = some rec := by
  simp [fetch1]

/-- C1: first `reserve` on a scheduled row returns true; the second call,
however, also returns true — `insert1(job, replace=True)` is an
unconditional replace, which cannot raise `DuplicateError`, so the "already
taken" branch is unreachable.  This evaluates the code at the failing
input of the claim (and of the repository's own test, which asserts the
second call returns false). -/
theorem reserve_second_call_returns_true :
    (Job.reserve {} [Job.scheduledRecord {} 1] 1).1 = true
    ∧ (fetch1 (Job.reserve {} [Job.scheduledRecord {} 1] 1).2 1).map JobRecord.status
        = some Status.reserved
    ∧ (Job.reserve {} (Job.reserve {} [Job.scheduledRecord {} 1] 1).2 1).1 = true
    ∧ (Job.reserve {} (Job.reserve {} [Job.scheduledRecord {} 1] 1).2 1).2
        = [Job.reserveRecord {} 1] := by
  decide

/-- C10: `get_scheduled_jobs` applies the cap only when `limit` is truthy
(Python `if limit:`), so `limit=0` behaves exactly like `limit=None` and
returns the full sequence. -/
theorem get_scheduled_jobs_limit_zero (tbl : List JobRecord)
    (ob : Option (List JobField)) :
    Job.get_scheduled_jobs tbl (some 0) ob = Job.get_scheduled_jobs tbl none ob := by
  cases ob <;> rfl

/-- C7: after `complete(k, duration=2.5, version=\x7b"v": 1\x7d)`, reading key k
returns the completed row: `status=success`, `run_duration=2.5`, and a
`run_version` text that decodes back to the supplied structure. -/
theorem complete_roundtrip (ctx : WorkerCtx) (tbl : List JobRecord) (k : JobKey) :
    fetch1 (Job.complete ctx tbl k (some (2.5 : ℚ)) (some (Json.obj [("v", Json.num 1)]))) k
      = some (Job.completedRecord ctx k (some (2.5 : ℚ)) (some (Json.obj [("v", Json.num 1)])))
    ∧ (Job.completedRecord ctx k (some (2.5 : ℚ)) (some (Json.obj [("v", Json.num 1)]))).status
        = Status.success
    ∧ (Job.completedRecord ctx k (some (2.5 : ℚ)) (some (Json.obj [("v", Json.num 1)]))).run_duration
        = some (2.5 : ℚ)
    ∧ ((Job.completedRecord ctx k (some (2.5 : ℚ))
          (some (Json.obj [("v", Json.num 1)]))).run_version.bind Json.loads)
        = some (Json.obj [("v", Json.num 1)]) := by
  refine ⟨?_, rfl, rfl, rfl⟩
  have h := fetch1_replace tbl
    (Job.completedRecord ctx k (some (2.5 : ℚ)) (some (Json.obj [("v", Json.num 1)])))
  simpa [Job.complete, insert_or_replace] using h

/-- C9: `complete` stores `run_version` as null whenever the supplied value
is falsy (`json.dumps(run_version) if run_version else None`): the empty
object, 0 and the empty string are all stored as null; only truthy values
are serialized. -/
theorem complete_falsy_version_null (ctx : WorkerCtx) (tbl : List JobRecord)
    (k : JobKey) (dur : Option ℚ) (v : Json) :
    fetch1 (Job.complete ctx tbl k dur (some v)) k
      = some (Job.completedRecord ctx k dur (some v))
    ∧ (Job.completedRecord ctx k dur (some v)).run_version
        = (if v.truthy then some v.dumps else none)
    ∧ (Job.completedRecord ctx k dur (some (Json.obj []))).run_version = none
    ∧ (Job.completedRecord ctx k dur (some (Json.num 0))).run_version = none
    ∧ (Job.completedRecord ctx k dur (some (Json.str ""))).run_version = none
    ∧ (Job.completedRecord ctx k dur none).run_version = none := by
  refine ⟨?_, rfl, rfl, rfl, rfl, rfl⟩
  have h := fetch1_replace tbl (Job.completedRecord ctx k dur (some v))
  simpa [Job.complete, insert_or_replace] using h

/-- C8: `set_priority` rewrites only the `priority` field of the row with
the given key: the result is the pointwise update `\x7b r with priority := p \x7d`,
so every other field — in particular `status` — is untouched, and rows
with other keys are untouched entirely. -/
theorem set_priority_only_priority (tbl : List JobRecord) (k : JobKey) (p : Int)
    (h : ∃ r ∈ tbl, r.key = k) :
    Job.set_priority tbl k p
      = .ok (tbl.map fun r => if r.key = k then { r with priority := p } else r)
    ∧ (tbl.map fun r => if r.key = k then { r with priority := p } else r).map
          JobRecord.status
        = tbl.map JobRecord.status
    ∧ (tbl.map fun r => if r.key = k then { r with priority := p } else r).map
          JobRecord.key
        = tbl.map JobRecord.key
    ∧ ∀ r ∈ tbl, r.key ≠ k →
        (if r.key = k then { r with priority := p } else r) = r := by
  obtain ⟨r0, hr0, hk0⟩ := h
  refine ⟨?_, ?_, ?_, ?_⟩
  · have hany : (tbl.any fun r => r.key = k) = true :=
      List.any_eq_true.mpr ⟨r0, hr0, by simp [hk0]⟩
    simp [Job.set_priority, Job.update1_priority, hany]
  · rw [List.map_map]
    refine List.map_congr_left fun r _ => ?_
    by_cases hr : r.key = k <;> simp [hr, Function.comp]
  · rw [List.map_map]
    refine List.map_congr_left fun r _ => ?_
    by_cases hr : r.key = k <;> simp [hr, Function.comp]
  · intro r _ hrk
    simp [hrk]

/-- C8 witness: a concrete table with one row of key 1. -/
theorem set_priority_only_priority_witness :
    (∃ r ∈ [Job.scheduledRecord {} 1], r.key = 1)
    ∧ Job.set_priority [Job.scheduledRecord {} 1] 1 7
        = .ok ([Job.scheduledRecord {} 1].map fun r =>
            if r.key = 1 then { r with priority := 7 } else r) :=
  ⟨⟨Job.scheduledRecord {} 1, by simp, rfl⟩,
    (set_priority_only_priority [Job.scheduledRecord {} 1] 1 7
      ⟨Job.scheduledRecord {} 1, by simp, rfl⟩).1⟩

/-- C4: an over-long error message is stored as its first
`ERROR_MESSAGE_LENGTH - len(TRUNCATION_APPENDIX)` characters followed by
the marker, giving exactly `ERROR_MESSAGE_LENGTH` characters ending in the
marker; a second `error` call with the already-truncated message stores it
unchanged (its length no longer exceeds the cap). -/
theorem error_truncates (ctx : WorkerCtx) (tbl : List JobRecord) (k : JobKey)
    (stack : Option String) (m : String)
    (h : m.length > Job.ERROR_MESSAGE_LENGTH) :
    fetch1 (Job.error ctx tbl k m stack) k
        = some (Job.errorRecord ctx k (Job.truncateMsg m) stack)
    ∧ Job.truncateMsg m
        = String.mk (m.data.take
            (Job.ERROR_MESSAGE_LENGTH - Job.TRUNCATION_APPENDIX.length))
            ++ Job.TRUNCATION_APPENDIX
    ∧ (Job.truncateMsg m).length = Job.ERROR_MESSAGE_LENGTH
    ∧ (∃ p, Job.truncateMsg m = p ++ Job.TRUNCATION_APPENDIX)
    ∧ Job.truncateMsg (Job.truncateMsg m) = Job.truncateMsg m
    ∧ fetch1 (Job.error ctx (Job.error ctx tbl k m stack) k
          (Job.truncateMsg m) stack) k
        = some (Job.errorRecord ctx k (Job.truncateMsg m) stack) := by
  have h2 : Job.truncateMsg m
      = String.mk (m.data.take
          (Job.ERROR_MESSAGE_LENGTH - Job.TRUNCATION_APPENDIX.length))
          ++ Job.TRUNCATION_APPENDIX := by
    rw [Job.truncateMsg, if_pos h]
  have h3 : (Job.truncateMsg m).length = Job.ERROR_MESSAGE_LENGTH := by
    rw [h2, String.length_append]
    show (m.data.take 2035).length + 12 = 2047
    rw [List.length_take]
    have hd : m.data.length = m.length := rfl
    have hm : m.length > 2047 := h
    omega
  have h5 : Job.truncateMsg (Job.truncateMsg m) = Job.truncateMsg m := by
    rw [Job.truncateMsg, if_neg]
    rw [h3]
    exact lt_irrefl _
  refine ⟨?_, h2, h3, ⟨_, h2⟩, h5, ?_⟩
  · have hf := fetch1_replace tbl (Job.errorRecord ctx k (Job.truncateMsg m) stack)
    simpa [Job.error, insert_or_replace] using hf
  · have hf := fetch1_replace (Job.error ctx tbl k m stack)
      (Job.errorRecord ctx k (Job.truncateMsg (Job.truncateMsg m)) stack)
    rw [h5] at hf
    simpa [Job.error, insert_or_replace, h5] using hf

/-- C4 witness: the 5000-character message is truncated to exactly the
cap. -/
theorem error_truncates_witness :
    mlong.length > Job.ERROR_MESSAGE_LENGTH
    ∧ (Job.truncateMsg mlong).length = Job.ERROR_MESSAGE_LENGTH :=
  have hm : mlong.length > Job.ERROR_MESSAGE_LENGTH := by
    show (List.replicate 5000 'x').length > Job.ERROR_MESSAGE_LENGTH
    rw [List.length_replicate]
    decide
  ⟨hm, (error_truncates {} [] 0 none mlong hm).2.2.1⟩

/-- The deletion pass of `refresh` — iterated key-targeted deletes — equals
one filter: a row survives unless its key is listed and absent from the
work-set. -/
lemma deleteLoop_eq (ws : List JobKey) (ejs : List JobKey) (t : List JobRecord) :
    ejs.foldl (fun t job_key =>
        if job_key ∈ ws then t else t.filter fun r => r.key ≠ job_key) t
      = t.filter fun r => ¬ (r.key ∈ ejs ∧ r.key ∉ ws) := by
  induction ejs generalizing t with
  | nil => simp
  | cons jk rest ih =>
      rw [List.foldl_cons]
      by_cases hjk : jk ∈ ws
      · rw [if_pos hjk, ih]
        refine List.filter_congr fun r hr => ?_
        rw [decide_eq_decide]
        by_cases h1 : r.key = jk
        · subst h1
          simp [hjk]
        · simp [List.mem_cons, h1]
      · rw [if_neg hjk, ih, List.filter_filter]
        refine List.filter_congr fun r hr => ?_
        by_cases h1 : r.key = jk
        · subst h1
          simp [hjk]
        · simp [List.mem_cons, h1]

/-- With unique keys, a row's key appears among the preserved-status keys
exactly when the row itself has a preserved status. -/
lemma key_mem_preservedKeys {tbl : List JobRecord}
    (hnd : (tbl.map JobRecord.key).Nodup) {r : JobRecord} (hr : r ∈ tbl) :
    r.key ∈ (tbl.filter fun x => x.status ∈ Job.preserve_statuses).map (·.key)
      ↔ r.status ∈ Job.preserve_statuses := by
  constructor
  · intro h
    rcases List.mem_map.mp h with ⟨x, hx, hkey⟩
    rcases List.mem_filter.mp hx with ⟨hxt, hxp⟩
    have hxr : x = r := List.inj_on_of_nodup_map hnd hxt hr hkey
    subst hxr
    exact of_decide_eq_true hxp
  · intro h
    exact List.mem_map.mpr
      ⟨r, List.mem_filter.mpr ⟨hr, decide_eq_true h⟩, rfl⟩

/-- The insertion pass of `refresh`: with distinct work-set keys, none of
which (among the genuinely new ones) are present yet, every plain insert
succeeds and appends the new scheduled rows in work-set order. -/
lemma insertLoop_eq (ctx : WorkerCtx) (ea : List JobKey) (ks : List JobKey)
    (t : List JobRecord) (hnd : ks.Nodup)
    (hnew : ∀ k ∈ ks, k ∉ ea → k ∉ t.map JobRecord.key) :
    ks.foldlM (fun t k =>
        if k ∈ ea then pure t
        else insert_or_replace t (Job.scheduledRecord ctx k) false) t
      = Except.ok (t ++ (ks.filter fun k => k ∉ ea).map (Job.scheduledRecord ctx)) := by
  induction ks generalizing t with
  | nil =>
      simp only [List.foldlM_nil, List.filter_nil, List.map_nil, List.append_nil]
      rfl
  | cons k rest ih =>
      rw [List.foldlM_cons]
      rcases List.nodup_cons.mp hnd with ⟨hk_rest, hnd'⟩
      by_cases hk : k ∈ ea
      · rw [if_pos hk]
        rw [show (pure t >>= fun t' =>
              rest.foldlM (fun t k => if k ∈ ea then pure t
                else insert_or_replace t (Job.scheduledRecord ctx k) false) t')
            = rest.foldlM (fun t k => if k ∈ ea then pure t
                else insert_or_replace t (Job.scheduledRecord ctx k) false) t
          from pure_bind t _]
        rw [ih t hnd' fun k' hk' hk'ea => hnew k' (List.mem_cons_of_mem _ hk') hk'ea]
        rw [List.filter_cons_of_neg (by simpa using hk)]
      · rw [if_neg hk]
        have hkt : k ∉ t.map JobRecord.key := hnew k (List.mem_cons_self k rest) hk
        have hany : (t.any fun r => r.key = (Job.scheduledRecord ctx k).key) = false := by
          rw [Bool.eq_false_iff]
          intro hc
          rcases List.any_eq_true.mp hc with ⟨r, hrt, hrk⟩
          exact hkt (List.mem_map.mpr ⟨r, hrt, of_decide_eq_true hrk⟩)
        rw [show insert_or_replace t (Job.scheduledRecord ctx k) false
            = Except.ok (t ++ [Job.scheduledRecord ctx k]) by
          rw [insert_or_replace, if_neg (by simp), if_neg (by simp [hany])]]
        rw [show (Except.ok (t ++ [Job.scheduledRecord ctx k]) >>= fun t' =>
              rest.foldlM (fun t k => if k ∈ ea then pure t
                else insert_or_replace t (Job.scheduledRecord ctx k) false) t')
            = rest.foldlM (fun t k => if k ∈ ea then pure t
                else insert_or_replace t (Job.scheduledRecord ctx k) false)
                (t ++ [Job.scheduledRecord ctx k])
          from pure_bind _ _]
        rw [ih (t ++ [Job.scheduledRecord ctx k]) hnd' ?_]
        · rw [List.filter_cons_of_pos (by simpa using hk), List.map_cons,
            List.append_assoc, List.singleton_append]
        · intro k' hk' hk'ea
          have hne : k' ≠ k := fun he => hk_rest (he ▸ hk')
          have := hnew k' (List.mem_cons_of_mem _ hk') hk'ea
          simp only [List.map_append, List.mem_append]
          rintro (hc | hc)
          · exact this hc
          · simp [Job.scheduledRecord] at hc
            exact hne hc

/-- Full characterization of `refresh` on a registry with unique keys and a
duplicate-free work-set: it deletes exactly the preserved-status rows whose
key left the work-set, keeps everything else untouched, and appends one
fresh scheduled row per work-set key not yet present. -/
lemma refresh_eq (ctx : WorkerCtx) (tbl : List JobRecord) (ws : List JobKey)
    (hnd : (tbl.map JobRecord.key).Nodup) (hws : ws.Nodup) :
    Job.refresh ctx tbl ws = Except.ok
      ((tbl.filter fun r => ¬ (r.status ∈ Job.preserve_statuses ∧ r.key ∉ ws))
        ++ ((ws.filter fun k => k ∉ tbl.map JobRecord.key).map
              (Job.scheduledRecord ctx))) := by
  have hdel :
      (((tbl.filter fun r => r.status ∈ Job.preserve_statuses).map (·.key)).foldl
          (fun t job_key =>
            if job_key ∈ ws then t else t.filter fun r => r.key ≠ job_key) tbl)
        = tbl.filter fun r => ¬ (r.status ∈ Job.preserve_statuses ∧ r.key ∉ ws) := by
    rw [deleteLoop_eq]
    refine List.filter_congr fun r hr => ?_
    rw [decide_eq_decide]
    have hiff := key_mem_preservedKeys hnd hr
    tauto
  have hfil :
      (ws.filter fun k =>
          k ∉ (tbl.filter fun r =>
              ¬ (r.status ∈ Job.preserve_statuses ∧ r.key ∉ ws)).map JobRecord.key)
        = ws.filter fun k => k ∉ tbl.map JobRecord.key := by
    refine List.filter_congr fun k hk => ?_
    rw [decide_eq_decide]
    have hmem :
        (k ∈ (tbl.filter fun r =>
            ¬ (r.status ∈ Job.preserve_statuses ∧ r.key ∉ ws)).map JobRecord.key)
          ↔ k ∈ tbl.map JobRecord.key := by
      constructor
      · intro h
        rcases List.mem_map.mp h with ⟨r, hrf, hrk⟩
        exact List.mem_map.mpr ⟨r, (List.mem_filter.mp hrf).1, hrk⟩
      · intro h
        rcases List.mem_map.mp h with ⟨r, hrt, hrk⟩
        refine List.mem_map.mpr ⟨r, List.mem_filter.mpr ⟨hrt, ?_⟩, hrk⟩
        refine decide_eq_true fun hc => ?_
        exact hc.2 (hrk ▸ hk)
    tauto
  simp only [Job.refresh]
  rw [hdel]
  rw [insertLoop_eq ctx _ ws _ hws fun _ _ h => h]
  rw [show (fun k => decide (k ∉ (tbl.filter fun r =>
        ¬ (r.status ∈ Job.preserve_statuses ∧ r.key ∉ ws)).map (·.key)))
      = fun k => decide (k ∉ (tbl.filter fun r =>
        ¬ (r.status ∈ Job.preserve_statuses ∧ r.key ∉ ws)).map JobRecord.key)
    from rfl]
  rw [hfil]

/-- C3: with registry \x7ba: reserved, b: error, c: scheduled\x7d and
work_set \x7ba, c, d\x7d, `refresh` deletes b, inserts d as scheduled, and leaves
a and c untouched (so in particular their statuses are unchanged). -/
theorem refresh_P4_scenario :
    Job.refresh {} [recA, recB, recC] [1, 3, 4]
        = .ok [recA, recC, Job.scheduledRecord {} 4]
    ∧ recA.status = Status.reserved
    ∧ recB.status = Status.error
    ∧ recC.status = Status.scheduled
    ∧ (Job.scheduledRecord ({} : WorkerCtx) 4).status = Status.scheduled
    ∧ ∀ r ∈ [recA, recC, Job.scheduledRecord ({} : WorkerCtx) 4],
        r.key ≠ recB.key := by
  decide

/-- C2 counterexample: `refresh` DOES remove a record with preserved status
(here `reserved`) when its key is absent from the work-set — the registry
ends empty — refuting "refresh never removes a record whose status is in
\x7breserved, error, ignore\x7d". -/
theorem refresh_removes_reserved_counterexample :
    cexReserved.status ∈ Job.preserve_statuses
    ∧ Job.refresh {} [cexReserved] [] = .ok [] := by
  decide

/-- C2 (amended): `refresh` removes exactly the records with status in
\x7breserved, error, ignore\x7d whose key is absent from the work-set; records
with any other status — in particular `scheduled` — are never removed. -/
theorem refresh_removes_exactly_stale_preserved (ctx : WorkerCtx)
    (tbl : List JobRecord) (ws : List JobKey) (tbl' : List JobRecord)
    (hnd : (tbl.map JobRecord.key).Nodup) (hws : ws.Nodup)
    (h : Job.refresh ctx tbl ws = .ok tbl') :
    ∀ r ∈ tbl,
      (r ∈ tbl' ↔ ¬ (r.status ∈ Job.preserve_statuses ∧ r.key ∉ ws))
      ∧ (r.status = Status.scheduled → r ∈ tbl') := by
  rw [refresh_eq ctx tbl ws hnd hws] at h
  simp only [Except.ok.injEq] at h
  subst h
  intro r hr
  have hiff :
      r ∈ (tbl.filter fun r => ¬ (r.status ∈ Job.preserve_statuses ∧ r.key ∉ ws))
          ++ ((ws.filter fun k => k ∉ tbl.map JobRecord.key).map
                (Job.scheduledRecord ctx))
        ↔ ¬ (r.status ∈ Job.preserve_statuses ∧ r.key ∉ ws) := by
    constructor
    · intro hmem
      rcases List.mem_append.mp hmem with hf | hnew
      · exact of_decide_eq_true (List.mem_filter.mp hf).2
      · exfalso
        rcases List.mem_map.mp hnew with ⟨k, hkf, hrk⟩
        have hknot : k ∉ tbl.map JobRecord.key :=
          of_decide_eq_true (List.mem_filter.mp hkf).2
        have hkey : r.key = k := by rw [← hrk]; rfl
        exact hknot (List.mem_map.mpr ⟨r, hr, hkey⟩)
    · intro hsurv
      exact List.mem_append.mpr
        (Or.inl (List.mem_filter.mpr ⟨hr, decide_eq_true hsurv⟩))
  refine ⟨hiff, fun hsched => hiff.mpr ?_⟩
  rintro ⟨hpres, -⟩
  rw [hsched] at hpres
  exact absurd hpres (by decide)

/-- C2 (amended) witness: a lone reserved row with key 1 and an empty
work-set; `refresh` deletes it. -/
theorem refresh_removes_exactly_stale_preserved_witness :
    (([recA].map JobRecord.key).Nodup ∧ ([] : List JobKey).Nodup
      ∧ Job.refresh {} [recA] [] = .ok [])
    ∧ ∀ r ∈ [recA],
        (r ∈ ([] : List JobRecord)
          ↔ ¬ (r.status ∈ Job.preserve_statuses ∧ r.key ∉ ([] : List JobKey)))
        ∧ (r.status = Status.scheduled → r ∈ ([] : List JobRecord)) :=
  ⟨⟨by decide, by decide, by decide⟩,
    refresh_removes_exactly_stale_preserved {} [recA] [] []
      (by decide) (by decide) (by decide)⟩

/-- C6: `refresh` inserts a `scheduled`, priority-3 row for every work-set
key with no existing record of any status; work-set keys that already have
a record keep that record untouched and are not inserted again (the result
still has pairwise-distinct keys). -/
theorem refresh_inserts_new_scheduled (ctx : WorkerCtx) (tbl : List JobRecord)
    (ws : List JobKey) (tbl' : List JobRecord)
    (hnd : (tbl.map JobRecord.key).Nodup) (hws : ws.Nodup)
    (h : Job.refresh ctx tbl ws = .ok tbl') :
    (∀ k ∈ ws, k ∉ tbl.map JobRecord.key → Job.scheduledRecord ctx k ∈ tbl')
    ∧ (∀ k, (Job.scheduledRecord ctx k).status = Status.scheduled
        ∧ (Job.scheduledRecord ctx k).priority = 3)
    ∧ (∀ r ∈ tbl, r.key ∈ ws → r ∈ tbl')
    ∧ (tbl'.map JobRecord.key).Nodup := by
  rw [refresh_eq ctx tbl ws hnd hws] at h
  simp only [Except.ok.injEq] at h
  subst h
  refine ⟨?_, fun k => ⟨rfl, rfl⟩, ?_, ?_⟩
  · intro k hk hknew
    refine List.mem_append.mpr (Or.inr ?_)
    exact List.mem_map.mpr ⟨k, List.mem_filter.mpr ⟨hk, decide_eq_true hknew⟩, rfl⟩
  · intro r hr hrws
    refine List.mem_append.mpr (Or.inl (List.mem_filter.mpr ⟨hr, ?_⟩))
    refine decide_eq_true fun hc => ?_
    exact hc.2 hrws
  · rw [List.map_append]
    refine List.nodup_append.mpr ⟨?_, ?_, ?_⟩
    · exact hnd.sublist ((List.filter_sublist tbl).map JobRecord.key)
    · rw [List.map_map]
      have hid : (JobRecord.key ∘ Job.scheduledRecord ctx) = fun k => k := rfl
      rw [hid, List.map_id']
      exact hws.filter _
    · intro a ha hb
      rcases List.mem_map.mp ha with ⟨r, hrf, hrk⟩
      have hat : a ∈ tbl.map JobRecord.key :=
        List.mem_map.mpr ⟨r, (List.mem_filter.mp hrf).1, hrk⟩
      rw [List.map_map] at hb
      have hid : (JobRecord.key ∘ Job.scheduledRecord ctx) = fun k => k := rfl
      rw [hid, List.map_id'] at hb
      exact absurd hat (of_decide_eq_true (List.mem_filter.mp hb).2)

/-- C6 witness: registry [reserved row with key 1], work-set [1, 4]: the
fresh key 4 gets a scheduled priority-3 row, the key-1 row survives. -/
theorem refresh_inserts_new_scheduled_witness :
    (([recA].map JobRecord.key).Nodup ∧ ([1, 4] : List JobKey).Nodup
      ∧ Job.refresh {} [recA] [1, 4] = .ok [recA, Job.scheduledRecord {} 4])
    ∧ Job.scheduledRecord {} 4 ∈ [recA, Job.scheduledRecord {} 4] :=
  ⟨⟨by decide, by decide, by decide⟩,
    (refresh_inserts_new_scheduled {} [recA] [1, 4]
        [recA, Job.scheduledRecord {} 4] (by decide) (by decide) (by decide)).1
      4 (by decide) (by decide)⟩

/-- C5: with no arguments, `get_scheduled_jobs` returns exactly the keys of
the `scheduled` rows (a permutation of them), listed in an order sorted by
priority ascending then timestamp ascending; on the P5 rows this is
[(1,t1), (1,t3), (5,t2)]; a truthy limit caps the length of the result. -/
theorem get_claimable_default_order (tbl : List JobRecord) (n : Nat)
    (hn : 0 < n) :
    Job.get_scheduled_jobs tbl none none
        = (List.insertionSort (byFields [.priority, .timestamp])
            (tbl.filter fun r => r.status = Status.scheduled)).map JobRecord.key
    ∧ (Job.get_scheduled_jobs tbl none none).Perm
        ((tbl.filter fun r => r.status = Status.scheduled).map JobRecord.key)
    ∧ List.Sorted (byFields [.priority, .timestamp])
        (List.insertionSort (byFields [.priority, .timestamp])
          (tbl.filter fun r => r.status = Status.scheduled))
    ∧ (Job.get_scheduled_jobs tbl (some n) none).length ≤ n
    ∧ Job.get_scheduled_jobs [ex1, ex2, ex3] none none = [2, 3, 1] := by
  refine ⟨rfl, ?_, List.sorted_insertionSort _ _, ?_, by decide⟩
  · have hp := List.perm_insertionSort (byFields [.priority, .timestamp])
      (tbl.filter fun r => r.status = Status.scheduled)
    exact hp.map JobRecord.key
  · have hne : n ≠ 0 := Nat.pos_iff_ne_zero.mp hn
    simp only [Job.get_scheduled_jobs, if_pos hne]
    rw [List.length_map, List.length_take]
    exact min_le_left _ _

/-- C5 witness: a one-row table and limit 1. -/
theorem get_claimable_default_order_witness :
    0 < 1 ∧ (Job.get_scheduled_jobs [ex1] (some 1) none).length ≤ 1 :=
  ⟨Nat.one_pos, (get_claimable_default_order [ex1] 1 Nat.one_pos).2.2.2.1⟩
